import Mathlib

/-!
Shallow embedding of the filtop dashboard (filtop.go): the data model, the
derived-metric formulas of the renderer, the byte/duration formatters, the
poll loop's state transition, and the tview table operations used by the
inputs panel.  Go's `uint64` counters are embedded as `Nat` (no arithmetic in
the program can overflow them), `float64` arithmetic as exact rationals `ℚ`,
with non-finite float results (division by zero) represented explicitly.
-/

namespace Filtop

/-- Capacity of the snapshot history buffer (constant `historySize`, filtop.go line 23). -/
def historySize : Nat := 30

/-- One configured data source as reported by the agent (struct `Input`, filtop.go
lines 115-134).  The two histograms are decoded JSON objects; the program only
ever reads their numeric entries, so they are embedded as association lists
from bucket label to value. -/
structure Input where
  id : String
  type : String
  device : String
  packets : Nat
  bytes : Nat
  events : Nat
  active : Bool
  arrivalHistogram : List (String × ℚ)
  processingHistogram : List (String × ℚ)
  throughputBytes : ℚ
  throughputEvents : ℚ
  files : Nat
deriving DecidableEq

/-- One entry of `filebeat.modules.list` (filtop.go lines 96-102). -/
structure ModuleEntry where
  name : String
  enabled : Bool
  errors : Int
deriving DecidableEq

/-- One fetched sample (struct `FilebeatStats`, filtop.go lines 37-113), with the
nested Go structs flattened to one field per JSON path.  `timestamp` is the
local capture instant stamped by `fetchStats` (line 362), in an abstract clock. -/
structure FilebeatStats where
  timestamp : Nat
  cpuSystemTicks : Nat
  cpuSystemTimeMs : Nat
  cpuTotalTicks : Nat
  cpuTotalTimeMs : Nat
  cpuTotalValue : Nat
  cpuUserTicks : Nat
  cpuUserTimeMs : Nat
  memoryAlloc : Nat
  rss : Nat
  uptimeMs : Nat
  queueFilledEvents : Nat
  queueMaxEvents : Nat
  eventsTotal : Nat
  eventsDropped : Nat
  eventsFailed : Nat
  eventsFiltered : Nat
  harvesterRunning : Nat
  harvesterOpen : Nat
  harvesterClosed : Nat
  harvesterStarted : Nat
  harvesterTerminated : Nat
  inputs : List Input
  modules : List ModuleEntry
  load1 : ℚ
  load5 : ℚ
  load15 : ℚ
deriving DecidableEq

/-! ## Number formatting helpers -/

/-- Round a rational to the nearest integer, ties to even: the rounding Go's
`fmt` verbs `%.1f` and `%.2f` apply to an exactly representable value. -/
def roundHalfEven (q : ℚ) : ℤ :=
  if q - ⌊q⌋ < 1/2 then ⌊q⌋
  else if 1/2 < q - ⌊q⌋ then ⌊q⌋ + 1
  else if ⌊q⌋ % 2 = 0 then ⌊q⌋ else ⌊q⌋ + 1

/-- Decimal rendering of a rational with one digit after the point, as Go's
`fmt.Sprintf "%.1f"` produces for the value (exact-arithmetic idealization of
the float64 computation; exact on every input the claims evaluate). -/
def formatFixed1 (q : ℚ) : String :=
  (if roundHalfEven (q * 10) < 0 then "-" else "") ++
    toString ((roundHalfEven (q * 10)).natAbs / 10) ++ "." ++
    toString ((roundHalfEven (q * 10)).natAbs % 10)

/-- Decimal rendering of a rational with two digits after the point, as Go's
`fmt.Sprintf "%.2f"` produces for the value (same idealization as `formatFixed1`). -/
def formatFixed2 (q : ℚ) : String :=
  (if roundHalfEven (q * 100) < 0 then "-" else "") ++
    toString ((roundHalfEven (q * 100)).natAbs / 100) ++ "." ++
    (if (roundHalfEven (q * 100)).natAbs % 100 < 10 then
      "0" ++ toString ((roundHalfEven (q * 100)).natAbs % 100)
    else toString ((roundHalfEven (q * 100)).natAbs % 100))

/-- Go's `%t` boolean formatting. -/
def goBool (b : Bool) : String := if b then "true" else "false"

/-- Loop body of `formatBytes` (filtop.go line 297):
`for n := bytes / unit; n >= unit; n /= unit \x7b div *= unit; exp++ \x7d`.
The first argument is explicit fuel; since `n` strictly decreases at every
iteration, any fuel of at least `n` reaches the loop's exit condition
(`fbLoopAux_irrel` below), so `fbLoop` sets the fuel to `n` itself.  The fuel
only makes the recursion structural so that concrete runs reduce in the kernel. -/
def fbLoopAux : Nat → Nat → Nat → Nat → Nat × Nat
  | 0, _, div, exp => (div, exp)
  | fuel + 1, n, div, exp =>
    if 1024 ≤ n then fbLoopAux fuel (n / 1024) (div * 1024) (exp + 1) else (div, exp)

/-- The `div`/`exp` pair computed by `formatBytes`' division loop, started on `n`. -/
def fbLoop (n div exp : Nat) : Nat × Nat := fbLoopAux n n div exp

/-- The unit characters `"KMGTPE"` indexed by `exp` in `formatBytes` (line 301). -/
def fbUnits : List Char := ['K', 'M', 'G', 'T', 'P', 'E']

/-- Divisor selected by `formatBytes` for a value of at least 1024. -/
def fbDiv (bytes : Nat) : Nat := (fbLoop (bytes / 1024) 1024 0).1

/-- Unit exponent selected by `formatBytes` for a value of at least 1024. -/
def fbExp (bytes : Nat) : Nat := (fbLoop (bytes / 1024) 1024 0).2

/-- `formatBytes` (filtop.go lines 291-302): binary units, `%d B` below 1024,
otherwise `%.1f %ciB` with the divisor and unit chosen by the division loop.
Indexing `"KMGTPE"[exp]` is embedded as a list lookup with a default; the
totality theorem shows the default is never taken for `uint64` inputs. -/
def formatBytes (bytes : Nat) : String :=
  if bytes < 1024 then toString bytes ++ " B"
  else
    formatFixed1 ((bytes : ℚ) / (fbDiv bytes : ℚ)) ++ " " ++
      String.mk [fbUnits.getD (fbExp bytes) 'K'] ++ "iB"

/-! ## Renderer formulas -/

/-- Result of a Go `float64` computation: a finite value, or one of the
non-finite results a division by zero produces. -/
inductive GoFloat where
  | fin (q : ℚ)
  | inf
  | nan
deriving DecidableEq

/-- CPU percentage computed by `updateSystemMetrics` (filtop.go lines 444-445):
`float64(totalMs) / float64(uptimeMs) * 100` with no guard on the divisor.  In
Go, a float64 division by zero yields `+Inf` for a nonzero dividend and `NaN`
for a zero one; those cases are represented by the non-finite constructors. -/
def cpuPercent (totalMs uptimeMs : Nat) : GoFloat :=
  if uptimeMs = 0 then
    if totalMs = 0 then GoFloat.nan else GoFloat.inf
  else GoFloat.fin ((totalMs : ℚ) / (uptimeMs : ℚ) * 100)

/-- Truncation of a rational toward zero: Go's `int(x)` conversion on a finite float. -/
def ratTrunc (q : ℚ) : ℤ := if q < 0 then -⌊-q⌋ else ⌊q⌋

/-- Queue fill percentage computed by `updateQueue` (filtop.go lines 488-491):
zero unless `max_events` is positive, else `filled / max * 100`. -/
def queuePercent (filled maxEvents : Nat) : ℚ :=
  if 0 < maxEvents then (filled : ℚ) / (maxEvents : ℚ) * 100 else 0

/-- Bar length computed by `updateQueue` (filtop.go lines 493-496):
`bars := int(percent / 5)` then clamped below at 0. -/
def queueBars (filled maxEvents : Nat) : ℤ :=
  let bars := ratTrunc (queuePercent filled maxEvents / 5)
  if bars < 0 then 0 else bars

/-- The filled-block run rendered by `updateQueue` (filtop.go line 499):
`strings.Repeat("█", bars)`. -/
def queueBarString (filled maxEvents : Nat) : String :=
  String.mk (List.replicate (queueBars filled maxEvents).toNat '█')

/-- Go `time.Duration.String` restricted to whole-second durations, the only
values `updateSystemMetrics` renders after `Truncate(time.Minute)`.  Modelled
from the Go standard library: zero prints `"0s"`; otherwise the seconds
component always appears, preceded by minutes when the duration reaches one
minute and by hours when it reaches one hour. -/
def goDurStrSec (s : Nat) : String :=
  if s = 0 then "0s"
  else
    let secPart := toString (s % 60) ++ "s"
    if s < 60 then secPart
    else
      let m := s / 60
      let minPart := toString (m % 60) ++ "m" ++ secPart
      if m < 60 then minPart else toString (m / 60) ++ "h" ++ minPart

/-- Uptime text computed by `updateSystemMetrics` (filtop.go lines 451, 460):
the uptime in milliseconds becomes a nanosecond `time.Duration`, is truncated
to a whole minute (`d - d % Minute`), and rendered with `Duration.String`. -/
def uptimeDisplay (uptimeMs : Nat) : String :=
  let ns := uptimeMs * 1000000
  let truncated := ns - ns % 60000000000
  goDurStrSec (truncated / 1000000000)

/-! ## The poll loop -/

/-- Outcome of one HTTP fetch as `fetchStats`/`fetchInputs` classify it
(filtop.go lines 347-383): a decoded value, or an error covering network
failure, a non-200 status, and malformed JSON alike. -/
inductive FetchResult (α : Type) where
  | ok (a : α)
  | err
deriving DecidableEq

/-- Mutable state owned by the poll loop: the `lastStats` pointer and the
`history` slice (filtop.go lines 30-31). -/
structure PollState where
  lastStats : Option FilebeatStats
  history : List FilebeatStats
deriving DecidableEq

/-- History append of `dataWorker` (filtop.go lines 335-338): push the snapshot,
then drop the first element when the length exceeds `historySize`. -/
def appendHistory (h : List FilebeatStats) (s : FilebeatStats) : List FilebeatStats :=
  let h2 := h ++ [s]
  if historySize < h2.length then h2.drop 1 else h2

/-- One iteration of `dataWorker`'s loop (filtop.go lines 320-342), as a state
transition on the fetch outcomes of the cycle.  A stats failure ends the cycle
before the inputs fetch (`continue`, line 325), leaving the state untouched;
an inputs failure only skips the `stats.Filebeat.Inputs = inputs` assignment. -/
def dataWorkerCycle (st : PollState) (statsR : FetchResult FilebeatStats)
    (inputsR : FetchResult (List Input)) : PollState :=
  match statsR with
  | FetchResult.err => st
  | FetchResult.ok stats =>
    let published :=
      match inputsR with
      | FetchResult.err => stats
      | FetchResult.ok ins => { stats with inputs := ins }
    { lastStats := some published, history := appendHistory st.history published }

/-- Initial poll state: both globals start empty (filtop.go lines 30-31). -/
def pollInit : PollState := { lastStats := none, history := [] }

/-- The poll loop run over a finite trace of per-cycle fetch outcomes. -/
def runWorker (evs : List (FetchResult FilebeatStats × FetchResult (List Input))) : PollState :=
  evs.foldl (fun st e => dataWorkerCycle st e.1 e.2) pollInit

/-! ## The tview table, as used by the inputs panel -/

/-- A table row: the text of its cells. -/
abbrev Row := List String

/-- A tview table's content: its rows, row 0 being the header. -/
abbrev Table := List Row

/-- tview `Table.GetRowCount`: the number of rows. -/
def getRowCount (t : Table) : Nat := t.length

/-- tview `Table.RemoveRow`: delete the row at an index, ignoring out-of-range
indices (modelled from tview's `tableDefaultContent.RemoveRow`). -/
def removeRow (t : Table) (row : Nat) : Table :=
  if row < t.length then t.eraseIdx row else t

/-- Pad a list on the right with a default element up to a length. -/
def padTo {α : Type} (l : List α) (n : Nat) (d : α) : List α :=
  l ++ List.replicate (n - l.length) d

/-- tview `Table.SetCell`: grow the table to reach the row, grow the row to
reach the column (fresh cells are empty), then set the cell's text. -/
def setCell (t : Table) (row col : Nat) (v : String) : Table :=
  let t2 := padTo t (row + 1) []
  t2.set row ((padTo (t2.getD row []) (col + 1) "").set col v)

/-- The row-clearing loop of `updateInputs` (filtop.go lines 514-516):
`for row := 1; row < table.GetRowCount(); row++ \x7b table.RemoveRow(row) \x7d`,
with `GetRowCount` re-read every iteration.  The first argument is explicit
fuel; the iteration count is bounded by the current row count, so any fuel of
at least `getRowCount t - row` gives the loop's true result
(`clearRowsAux_irrel` below), and `clearRows` passes `t.length`. -/
def clearRowsAux : Nat → Table → Nat → Table
  | 0, t, _ => t
  | fuel + 1, t, row =>
    if row < getRowCount t then clearRowsAux fuel (removeRow t row) (row + 1) else t

/-- The row-clearing loop of `updateInputs`, started at row 1. -/
def clearRows (t : Table) (row : Nat) : Table := clearRowsAux t.length t row

/-- Set the five cells of one data row, left to right. -/
def setRowCells (t : Table) (row : Nat) (c0 c1 c2 c3 c4 : String) : Table :=
  setCell (setCell (setCell (setCell (setCell t row 0 c0) row 1 c1) row 2 c2) row 3 c3) row 4 c4

/-- One iteration of the row-writing loop of `updateInputs` (filtop.go lines
520-526): type, active (`%t`), events (`%d`), throughput bytes (`%.2f`), files (`%d`). -/
def setInputRow (t : Table) (row : Nat) (inp : Input) : Table :=
  setRowCells t row inp.type (goBool inp.active) (toString inp.events)
    (formatFixed2 inp.throughputBytes) (toString inp.files)

/-- The row-writing loop of `updateInputs` (filtop.go lines 520-526): one data
row per input, at consecutive row indices. -/
def writeInputRows (t : Table) (row : Nat) : List Input → Table
  | [] => t
  | inp :: rest => writeInputRows (setInputRow t row inp) (row + 1) rest

/-- `updateInputs` (filtop.go lines 507-531) acting on the inputs table: run the
row-clearing loop from row 1, then write one row per input at rows 1, 2, ... -/
def updateInputs (t : Table) (inputs : List Input) : Table :=
  writeInputRows (clearRows t 1) 1 inputs

/-- The header row installed by `createInputsTable` (filtop.go lines 417-420). -/
def headerRow : Row := ["Type", "Active", "Events", "Throughput", "Files"]

/-! ## Sample data for concrete runs -/

/-- A concrete snapshot with every counter zero, used to exercise the poll loop. -/
def sampleStats : FilebeatStats where
  timestamp := 0
  cpuSystemTicks := 0
  cpuSystemTimeMs := 0
  cpuTotalTicks := 0
  cpuTotalTimeMs := 0
  cpuTotalValue := 0
  cpuUserTicks := 0
  cpuUserTimeMs := 0
  memoryAlloc := 0
  rss := 0
  uptimeMs := 0
  queueFilledEvents := 0
  queueMaxEvents := 0
  eventsTotal := 0
  eventsDropped := 0
  eventsFailed := 0
  eventsFiltered := 0
  harvesterRunning := 0
  harvesterOpen := 0
  harvesterClosed := 0
  harvesterStarted := 0
  harvesterTerminated := 0
  inputs := []
  modules := []
  load1 := 0
  load5 := 0
  load15 := 0

/-- A concrete input with a given name suffix, event/file counter and zero throughput. -/
def mkInp (s : String) (n : Nat) : Input :=
  ⟨s, "t" ++ s, "", 0, 0, n, true, [], [], 0, 0, n⟩

/-- Six concrete inputs: a first render with these leaves six data rows behind. -/
def sixInputs : List Input :=
  [mkInp "1" 1, mkInp "2" 2, mkInp "3" 3, mkInp "4" 4, mkInp "5" 5, mkInp "6" 6]

/-- Two concrete inputs with fractional throughput values. -/
def twoInputs : List Input :=
  [⟨"a", "logA", "devA", 1, 2, 3, true, [], [], 25/2, 0, 4⟩,
   ⟨"b", "logB", "devB", 1, 2, 7, false, [], [], 3/2, 0, 8⟩]

/-! ## Properties of the formatBytes division loop -/

theorem fbLoopAux_irrel : ∀ f1 f2 n div exp, n ≤ f1 → n ≤ f2 →
    fbLoopAux f1 n div exp = fbLoopAux f2 n div exp := by
  intro f1
  induction f1 with
  | zero =>
    intro f2 n div exp h1 _
    have hn : n = 0 := Nat.le_zero.mp h1
    subst hn
    cases f2 with
    | zero => rfl
    | succ k => simp [fbLoopAux]
  | succ m ih =>
    intro f2 n div exp h1 h2
    cases f2 with
    | zero =>
      have hn : n = 0 := Nat.le_zero.mp h2
      subst hn
      simp [fbLoopAux]
    | succ k =>
      simp only [fbLoopAux]
      by_cases h : 1024 ≤ n
      · simp only [if_pos h]
        have hlt : n / 1024 < n := Nat.div_lt_self (by omega) (by norm_num)
        exact ih k (n / 1024) (div * 1024) (exp + 1) (by omega) (by omega)
      · simp only [if_neg h]

theorem fbLoop_step (n div exp : Nat) :
    fbLoop n div exp =
      if 1024 ≤ n then fbLoop (n / 1024) (div * 1024) (exp + 1) else (div, exp) := by
  cases n with
  | zero => simp [fbLoop, fbLoopAux]
  | succ m =>
    show fbLoopAux (m + 1) (m + 1) div exp = _
    simp only [fbLoopAux]
    by_cases h : 1024 ≤ m + 1
    · simp only [if_pos h]
      have hlt : (m + 1) / 1024 < m + 1 := Nat.div_lt_self (by omega) (by norm_num)
      exact fbLoopAux_irrel m ((m + 1) / 1024) ((m + 1) / 1024) (div * 1024) (exp + 1)
        (by omega) (le_refl _)
    · simp only [if_neg h]

theorem fbLoop_spec (b : Nat) : ∀ n div exp, div = 1024 ^ (exp + 1) → n = b / div →
    div ≤ b →
    (fbLoop n div exp).1 = 1024 ^ ((fbLoop n div exp).2 + 1) ∧
    1024 ^ ((fbLoop n div exp).2 + 1) ≤ b ∧
    b < 1024 ^ ((fbLoop n div exp).2 + 2) := by
  intro n
  induction n using Nat.strong_induction_on with
  | _ n ih =>
    intro div exp hdiv hn hle
    rw [fbLoop_step]
    by_cases h : 1024 ≤ n
    · rw [if_pos h]
      have hpos : 0 < div := by
        rw [hdiv]; exact pow_pos (by norm_num) _
      have hdiv2 : div * 1024 = 1024 ^ (exp + 1 + 1) := by
        rw [hdiv]; ring
      have hle2 : div * 1024 ≤ b := by
        have h1 : 1024 ≤ b / div := hn ▸ h
        have h2 : 1024 * div ≤ b := (Nat.le_div_iff_mul_le hpos).mp h1
        omega
      have hn2 : n / 1024 = b / (div * 1024) := by
        rw [hn, Nat.div_div_eq_div_mul]
      have hlt : n / 1024 < n := Nat.div_lt_self (by omega) (by norm_num)
      exact ih (n / 1024) hlt (div * 1024) (exp + 1) hdiv2 hn2 hle2
    · rw [if_neg h]
      have hpos : 0 < div := by
        rw [hdiv]; exact pow_pos (by norm_num) _
      refine ⟨hdiv, hdiv ▸ hle, ?_⟩
      have h1 : b / div < 1024 := by omega
      have h2 : b < 1024 * div := (Nat.div_lt_iff_lt_mul hpos).mp h1
      calc b < 1024 * div := h2
        _ = 1024 ^ (exp + 2) := by rw [hdiv]; ring

theorem fbDiv_fbExp_spec (b : Nat) (hb : 1024 ≤ b) :
    fbDiv b = 1024 ^ (fbExp b + 1) ∧ 1024 ^ (fbExp b + 1) ≤ b ∧
    b < 1024 ^ (fbExp b + 2) :=
  fbLoop_spec b (b / 1024) 1024 0 (by norm_num) rfl (by omega)

theorem fbExp_le_five (b : Nat) (hb : 1024 ≤ b) (hb64 : b < 2 ^ 64) : fbExp b ≤ 5 := by
  obtain ⟨-, hle, -⟩ := fbDiv_fbExp_spec b hb
  by_contra h
  push_neg at h
  have h7 : (1024 : Nat) ^ 7 ≤ 1024 ^ (fbExp b + 1) :=
    Nat.pow_le_pow_right (by norm_num) (by omega)
  have e1 : (1024 : Nat) ^ 7 = 1180591620717411303424 := by norm_num
  have e2 : (2 : Nat) ^ 64 = 18446744073709551616 := by norm_num
  omega

theorem formatBytes_ge (b : Nat) (hb : 1024 ≤ b) :
    formatBytes b = formatFixed1 ((b : ℚ) / (fbDiv b : ℚ)) ++ " " ++
      String.mk [fbUnits.getD (fbExp b) 'K'] ++ "iB" := by
  rw [formatBytes, if_neg (by omega)]

theorem fb_quotient_bounds (b : Nat) (hb : 1024 ≤ b) :
    1 ≤ (b : ℚ) / (fbDiv b : ℚ) ∧ (b : ℚ) / (fbDiv b : ℚ) < 1024 := by
  obtain ⟨hdiv, hle, hlt⟩ := fbDiv_fbExp_spec b hb
  have hpos : (0 : ℚ) < (fbDiv b : ℚ) := by
    have : 0 < fbDiv b := by
      rw [hdiv]; exact pow_pos (by norm_num) _
    exact_mod_cast this
  have hle2 : fbDiv b ≤ b := hdiv ▸ hle
  constructor
  · rw [one_le_div hpos]
    exact_mod_cast hle2
  · rw [div_lt_iff₀ hpos]
    have hmul : b < 1024 * fbDiv b := by
      rw [hdiv]
      calc b < 1024 ^ (fbExp b + 2) := hlt
        _ = 1024 * 1024 ^ (fbExp b + 1) := by ring
    calc (b : ℚ) < ((1024 * fbDiv b : Nat) : ℚ) := by exact_mod_cast hmul
      _ = 1024 * (fbDiv b : ℚ) := by push_cast; ring

theorem roundHalfEven_natCast (n : Nat) : roundHalfEven ((n : ℚ)) = (n : ℤ) := by
  rw [roundHalfEven]
  have hf : ⌊((n : ℚ))⌋ = (n : ℤ) := Int.floor_natCast n
  rw [hf, if_pos]
  rw [Int.cast_natCast, sub_self]
  norm_num

theorem formatFixed1_of (q : ℚ) (n : Nat) (h : q * 10 = (n : ℚ)) :
    formatFixed1 q = toString (n / 10) ++ "." ++ toString (n % 10) := by
  rw [formatFixed1, h, roundHalfEven_natCast]
  rw [if_neg (by exact not_lt.mpr (Int.natCast_nonneg n))]
  rw [Int.natAbs_ofNat]
  rfl

theorem formatFixed2_of (q : ℚ) (n : Nat) (h : q * 100 = (n : ℚ)) :
    formatFixed2 q = toString (n / 100) ++ "." ++
      (if n % 100 < 10 then "0" ++ toString (n % 100) else toString (n % 100)) := by
  rw [formatFixed2, h, roundHalfEven_natCast]
  rw [if_neg (by exact not_lt.mpr (Int.natCast_nonneg n))]
  rw [Int.natAbs_ofNat]
  rfl

theorem formatBytes_1024 : formatBytes 1024 = "1.0 KiB" := by
  rw [formatBytes_ge 1024 (by norm_num)]
  rw [show fbDiv 1024 = 1024 from rfl, show fbExp 1024 = 0 from rfl]
  rw [formatFixed1_of _ 10 (by norm_num)]
  rfl

theorem formatBytes_1048576 : formatBytes 1048576 = "1.0 MiB" := by
  rw [formatBytes_ge 1048576 (by norm_num)]
  rw [show fbDiv 1048576 = 1048576 from rfl, show fbExp 1048576 = 1 from rfl]
  rw [formatFixed1_of _ 10 (by norm_num)]
  rfl

theorem formatBytes_1536 : formatBytes 1536 = "1.5 KiB" := by
  rw [formatBytes_ge 1536 (by norm_num)]
  rw [show fbDiv 1536 = 1024 from rfl, show fbExp 1536 = 0 from rfl]
  rw [formatFixed1_of _ 15 (by norm_num)]
  rfl

/-- C6: the byte formatter uses binary units with one decimal place, a suffix
chosen by repeated division by 1024 until the quotient lies in [1, 1024), and
produces the specified values on 0, 1023, 1024, 1048576 and 1536. -/
theorem formatBytes_spec :
    formatBytes 0 = "0 B" ∧ formatBytes 1023 = "1023 B" ∧
    formatBytes 1024 = "1.0 KiB" ∧ formatBytes 1048576 = "1.0 MiB" ∧
    formatBytes 1536 = "1.5 KiB" ∧
    ∀ b, 1024 ≤ b →
      fbDiv b = 1024 ^ (fbExp b + 1) ∧
      1 ≤ (b : ℚ) / (fbDiv b : ℚ) ∧ (b : ℚ) / (fbDiv b : ℚ) < 1024 ∧
      formatBytes b = formatFixed1 ((b : ℚ) / (fbDiv b : ℚ)) ++ " " ++
        String.mk [fbUnits.getD (fbExp b) 'K'] ++ "iB" := by
  refine ⟨by decide, by decide, formatBytes_1024, formatBytes_1048576, formatBytes_1536, ?_⟩
  intro b hb
  obtain ⟨h1, h2⟩ := fb_quotient_bounds b hb
  exact ⟨(fbDiv_fbExp_spec b hb).1, h1, h2, formatBytes_ge b hb⟩

theorem formatBytes_spec_witness :
    1024 ≤ 2048 ∧
    (fbDiv 2048 = 1024 ^ (fbExp 2048 + 1) ∧
      1 ≤ ((2048 : Nat) : ℚ) / (fbDiv 2048 : ℚ) ∧
      ((2048 : Nat) : ℚ) / (fbDiv 2048 : ℚ) < 1024 ∧
      formatBytes 2048 = formatFixed1 (((2048 : Nat) : ℚ) / (fbDiv 2048 : ℚ)) ++ " " ++
        String.mk [fbUnits.getD (fbExp 2048) 'K'] ++ "iB") :=
  ⟨by decide, formatBytes_spec.2.2.2.2.2 2048 (by decide)⟩

/-- C10: `formatBytes` is total on every `uint64` input — values below 1024 take
the integer branch, and for larger values the loop's unit exponent stays at
most 5, so the index into the unit characters `"KMGTPE"` is in bounds. -/
theorem formatBytes_total (b : Nat) (hb : b < 2 ^ 64) :
    (b < 1024 → formatBytes b = toString b ++ " B") ∧
    (1024 ≤ b → fbExp b ≤ 5 ∧ fbExp b < fbUnits.length) := by
  constructor
  · intro h
    rw [formatBytes, if_pos h]
  · intro h
    have h5 := fbExp_le_five b h hb
    exact ⟨h5, by rw [show fbUnits.length = 6 from rfl]; omega⟩

theorem formatBytes_total_witness :
    ((1024 : Nat) < 2 ^ 64 ∧ 1024 ≤ 1024) ∧
    (fbExp 1024 ≤ 5 ∧ fbExp 1024 < fbUnits.length) :=
  ⟨⟨by decide, by decide⟩, (formatBytes_total 1024 (by decide)).2 (by decide)⟩

/-! ## CPU percentage -/

/-- C2 counterexample: with `time_ms = 500` and `uptime_ms = 0` the unguarded
division produces the non-finite value `+Inf`, not the 0 the claim requires. -/
theorem cpuPercent_cex :
    cpuPercent 500 0 = GoFloat.inf ∧ cpuPercent 500 0 ≠ GoFloat.fin 0 := by
  decide

/-- C2 (amended): the rendered CPU percentage equals
`time_ms / uptime_ms * 100` whenever `uptime_ms` is nonzero (so 500 over 10000
gives 5); when `uptime_ms` is 0 the division is unguarded and the result is the
non-finite float `+Inf` (`NaN` when `time_ms` is also 0), never the finite 0. -/
theorem cpuPercent_spec :
    cpuPercent 500 10000 = GoFloat.fin 5 ∧
    (∀ t u, u ≠ 0 → cpuPercent t u = GoFloat.fin ((t : ℚ) / (u : ℚ) * 100)) ∧
    (∀ t, cpuPercent t 0 ≠ GoFloat.fin 0) ∧
    cpuPercent 0 0 = GoFloat.nan ∧ cpuPercent 500 0 = GoFloat.inf := by
  refine ⟨?_, ?_, ?_, by decide, by decide⟩
  · rw [cpuPercent, if_neg (by norm_num)]
    norm_num
  · intro t u hu
    rw [cpuPercent, if_neg hu]
  · intro t
    rw [cpuPercent, if_pos rfl]
    by_cases ht : t = 0
    · rw [if_pos ht]
      exact fun h => GoFloat.noConfusion h
    · rw [if_neg ht]
      exact fun h => GoFloat.noConfusion h

theorem cpuPercent_spec_witness :
    (500 : Nat) ≠ 0 ∧
    cpuPercent 500 10000 = GoFloat.fin (((500 : Nat) : ℚ) / ((10000 : Nat) : ℚ) * 100) :=
  ⟨by decide, cpuPercent_spec.2.1 500 10000 (by decide)⟩

/-! ## Queue bar -/

theorem queuePercent_nonneg (f m : Nat) : 0 ≤ queuePercent f m := by
  rw [queuePercent]
  split
  · positivity
  · exact le_refl 0

theorem queueBars_eq_floor (f m : Nat) :
    queueBars f m = ⌊queuePercent f m / 5⌋ := by
  have h0 : 0 ≤ queuePercent f m / 5 := by
    have := queuePercent_nonneg f m
    positivity
  rw [queueBars, ratTrunc, if_neg (not_lt.mpr h0)]
  rw [if_neg (not_lt.mpr (Int.floor_nonneg.mpr h0))]

theorem queuePercent_pos_eq (f m : Nat) (hm : 0 < m) :
    queuePercent f m = ((f * 100 : Nat) : ℚ) / ((m : Nat) : ℚ) := by
  rw [queuePercent, if_pos hm]
  push_cast
  ring

theorem queueBars_eval (f m : Nat) (hm : 0 < m) :
    queueBars f m = ((f * 100 / (5 * m) : Nat) : ℤ) := by
  rw [queueBars_eq_floor]
  have hm5 : (0 : ℚ) < ((5 * m : Nat) : ℚ) := by
    have : 0 < 5 * m := by omega
    exact_mod_cast this
  have hq : queuePercent f m / 5 = ((f * 100 : Nat) : ℚ) / ((5 * m : Nat) : ℚ) := by
    rw [queuePercent_pos_eq f m hm]
    rw [div_div]
    push_cast
    ring_nf
  rw [hq]
  rw [← Int.natCast_floor_eq_floor (by positivity)]
  rw [Nat.floor_div_eq_div]

/-- C5 counterexample: with `filled = 101` and `max = 100` the fill
percentage is 101, strictly above 100, yet the bar holds exactly 20 blocks —
not more than 20 as the claim asserts for every percentage above 100. -/
theorem queueBar_cex :
    (100 : ℚ) < queuePercent 101 100 ∧ queueBars 101 100 = 20 ∧
    ¬ (20 : ℤ) < queueBars 101 100 := by
  have hp : queuePercent 101 100 = ((101 * 100 : Nat) : ℚ) / ((100 : Nat) : ℚ) :=
    queuePercent_pos_eq 101 100 (by norm_num)
  have hb : queueBars 101 100 = ((101 * 100 / (5 * 100) : Nat) : ℤ) :=
    queueBars_eval 101 100 (by norm_num)
  refine ⟨?_, ?_, ?_⟩
  · rw [hp]; norm_num
  · rw [hb]; norm_num
  · rw [hb]; norm_num

/-- C5 (amended): queue fill percent is `filled / max * 100`, or 0 when `max`
is 0; the bar holds `floor(percent / 5)` blocks, clamped below at 0 and with no
upper clamp — a percentage of at least 105 yields more than 20 blocks (one
above 100 need not: 101 percent still floors to 20).  `filled = 50, max = 1000`
gives 1 block and `max = 0` gives 0 blocks. -/
theorem queueBar_spec :
    (∀ f m, queueBars f m = ⌊queuePercent f m / 5⌋) ∧
    queuePercent 50 1000 = 5 ∧ queueBars 50 1000 = 1 ∧
    (∀ f, queuePercent f 0 = 0 ∧ queueBars f 0 = 0) ∧
    (∀ f m, 0 < m → 105 * m ≤ 100 * f → 105 ≤ queuePercent f m ∧ 20 < queueBars f m) ∧
    (∀ f m, (queueBarString f m).length = (queueBars f m).toNat) := by
  refine ⟨queueBars_eq_floor, ?_, ?_, ?_, ?_, ?_⟩
  · rw [queuePercent_pos_eq 50 1000 (by norm_num)]
    norm_num
  · rw [queueBars_eval 50 1000 (by norm_num)]
    norm_num
  · intro f
    constructor
    · rw [queuePercent, if_neg (by omega)]
    · rw [queueBars_eq_floor, queuePercent, if_neg (by omega)]
      norm_num
  · intro f m hm hge
    have hper : 105 ≤ queuePercent f m := by
      rw [queuePercent_pos_eq f m hm]
      rw [le_div_iff₀ (by exact_mod_cast hm)]
      have : (105 * m : Nat) ≤ (f * 100 : Nat) := by omega
      exact_mod_cast this
    refine ⟨hper, ?_⟩
    rw [queueBars_eq_floor]
    have h21 : (21 : ℤ) ≤ ⌊queuePercent f m / 5⌋ := by
      rw [Int.le_floor]
      rw [le_div_iff₀ (by norm_num)]
      push_cast
      linarith
    omega
  · intro f m
    rw [queueBarString]
    simp

theorem queueBar_spec_witness :
    ((0 : Nat) < 100 ∧ 105 * 100 ≤ 100 * 110) ∧
    (105 ≤ queuePercent 110 100 ∧ 20 < queueBars 110 100) :=
  ⟨⟨by decide, by decide⟩, queueBar_spec.2.2.2.2.1 110 100 (by decide) (by decide)⟩

/-! ## Uptime display -/

/-- C8 counterexample: an uptime of 125 minutes (7500000 ms) renders as
`"2h5m0s"` — Go's duration formatting always shows the (zero) seconds
component — not as the `"2h5m"` the claim states. -/
theorem uptimeDisplay_cex :
    uptimeDisplay 7500000 = "2h5m0s" ∧ uptimeDisplay 7500000 ≠ "2h5m" := by
  decide

/-- C8 (amended): the rendered uptime is the snapshot's uptime truncated to
whole minutes, formatted as a Go duration string, which always carries a
trailing zero-seconds component: 125 minutes renders as `"2h5m0s"`. -/
theorem uptimeDisplay_spec :
    (∀ ms, uptimeDisplay ms = goDurStrSec (60 * (ms / 60000))) ∧
    uptimeDisplay 7500000 = "2h5m0s" ∧ uptimeDisplay 3600000 = "1h0m0s" ∧
    uptimeDisplay 59999 = "0s" := by
  refine ⟨?_, by decide, by decide, by decide⟩
  intro ms
  show goDurStrSec ((ms * 1000000 - ms * 1000000 % 60000000000) / 1000000000) = _
  congr 1
  omega

/-! ## Poll loop lemmas -/

theorem dataWorkerCycle_err (st : PollState) (ir : FetchResult (List Input)) :
    dataWorkerCycle st FetchResult.err ir = st := rfl

theorem dataWorkerCycle_ok_err (st : PollState) (stats : FilebeatStats) :
    dataWorkerCycle st (FetchResult.ok stats) FetchResult.err =
      { lastStats := some stats, history := appendHistory st.history stats } := rfl

theorem dataWorkerCycle_ok_ok (st : PollState) (stats : FilebeatStats) (ins : List Input) :
    dataWorkerCycle st (FetchResult.ok stats) (FetchResult.ok ins) =
      { lastStats := some { stats with inputs := ins },
        history := appendHistory st.history { stats with inputs := ins } } := rfl

theorem appendHistory_length (h : List FilebeatStats) (s : FilebeatStats) :
    (appendHistory h s).length =
      if historySize < h.length + 1 then h.length else h.length + 1 := by
  have hlen : (h ++ [s]).length = h.length + 1 := by simp
  rw [appendHistory, hlen]
  by_cases hc : historySize < h.length + 1
  · rw [if_pos hc, if_pos hc]
    simp
  · rw [if_neg hc, if_neg hc]
    simp

theorem appendHistory_getLast (h : List FilebeatStats) (s : FilebeatStats) :
    (appendHistory h s).getLast? = some s := by
  rw [appendHistory]
  by_cases hc : historySize < (h ++ [s]).length
  · rw [if_pos hc]
    simp [historySize] at hc
    rw [List.drop_append_of_le_length (by omega)]
    exact List.getLast?_concat _
  · rw [if_neg hc]
    exact List.getLast?_concat _

theorem dataWorkerCycle_length_le (st : PollState) (sr : FetchResult FilebeatStats)
    (ir : FetchResult (List Input)) (h : st.history.length ≤ historySize) :
    (dataWorkerCycle st sr ir).history.length ≤ historySize := by
  cases sr with
  | err => exact h
  | ok stats =>
    cases ir with
    | err =>
      show (appendHistory st.history stats).length ≤ historySize
      rw [appendHistory_length]
      split <;> omega
    | ok ins =>
      show (appendHistory st.history { stats with inputs := ins }).length ≤ historySize
      rw [appendHistory_length]
      split <;> omega

theorem foldl_history_le (evs : List (FetchResult FilebeatStats × FetchResult (List Input))) :
    ∀ st : PollState, st.history.length ≤ historySize →
      (evs.foldl (fun st e => dataWorkerCycle st e.1 e.2) st).history.length ≤ historySize := by
  induction evs with
  | nil => intro st h; exact h
  | cons e rest ih =>
    intro st h
    rw [List.foldl_cons]
    exact ih _ (dataWorkerCycle_length_le st e.1 e.2 h)

/-- C1: over any run of the poll loop the history buffer never exceeds 30
entries, and appending a snapshot to a full buffer of 30 drops exactly the
oldest entry while preserving the order of the remaining 30 (the result is
literally the appended list with its head removed). -/
theorem history_bounded :
    historySize = 30 ∧
    (∀ evs, (runWorker evs).history.length ≤ historySize) ∧
    (∀ h s, h.length = historySize →
      appendHistory h s = (h ++ [s]).drop 1 ∧ (appendHistory h s).length = historySize) := by
  refine ⟨rfl, ?_, ?_⟩
  · intro evs
    rw [runWorker]
    exact foldl_history_le evs pollInit (by rw [pollInit]; simp)
  · intro h s hl
    constructor
    · rw [appendHistory, if_pos (by simp [hl, historySize])]
    · rw [appendHistory_length]
      split <;> omega

theorem history_bounded_witness :
    (List.replicate historySize sampleStats).length = historySize ∧
    appendHistory (List.replicate historySize sampleStats) sampleStats =
      (List.replicate historySize sampleStats ++ [sampleStats]).drop 1 :=
  ⟨by simp, (history_bounded.2.2 _ sampleStats (by simp)).1⟩

/-- C3: a failed stats fetch (network error, non-200 status or malformed JSON)
leaves the poll state — the last-known-snapshot reference and the history
buffer — exactly as it was, whatever the outcome of the inputs fetch would
have been; the loop just proceeds to the next cycle. -/
theorem statsFailure_preserves_state (st : PollState) (ir : FetchResult (List Input)) :
    dataWorkerCycle st FetchResult.err ir = st ∧
    (dataWorkerCycle st FetchResult.err ir).lastStats = st.lastStats ∧
    (dataWorkerCycle st FetchResult.err ir).history = st.history :=
  ⟨rfl, rfl, rfl⟩

/-- C4: when the stats fetch succeeds and the inputs fetch fails, the cycle
still appends the stats-derived snapshot to the history and publishes it as
the last known snapshot, with its `inputs` field exactly as decoded from the
stats payload; the inputs failure neither rolls back the stats fetch nor
aborts the cycle. -/
theorem inputsFailure_publishes (st : PollState) (stats : FilebeatStats) :
    (dataWorkerCycle st (FetchResult.ok stats) FetchResult.err).lastStats = some stats ∧
    (dataWorkerCycle st (FetchResult.ok stats) FetchResult.err).history =
      appendHistory st.history stats ∧
    (dataWorkerCycle st (FetchResult.ok stats) FetchResult.err).history.getLast? =
      some stats ∧
    Option.map FilebeatStats.inputs
      (dataWorkerCycle st (FetchResult.ok stats) FetchResult.err).lastStats =
      some stats.inputs := by
  refine ⟨rfl, rfl, ?_, rfl⟩
  rw [dataWorkerCycle_ok_err]
  exact appendHistory_getLast st.history stats

theorem foldl_lastStats_getLast
    (evs : List (FetchResult FilebeatStats × FetchResult (List Input))) :
    ∀ st : PollState, (∀ x, st.lastStats = some x → st.history.getLast? = some x) →
      ∀ x, (evs.foldl (fun st e => dataWorkerCycle st e.1 e.2) st).lastStats = some x →
        (evs.foldl (fun st e => dataWorkerCycle st e.1 e.2) st).history.getLast? = some x := by
  induction evs with
  | nil => intro st h; exact h
  | cons e rest ih =>
    intro st h
    rw [List.foldl_cons]
    apply ih
    rcases e with ⟨sr, ir⟩
    cases sr with
    | err => exact h
    | ok stats =>
      cases ir with
      | err =>
        intro x hx
        rw [dataWorkerCycle_ok_err] at hx ⊢
        have : stats = x := by
          have := hx
          simp at this
          exact this
        subst this
        exact appendHistory_getLast st.history stats
      | ok ins =>
        intro x hx
        rw [dataWorkerCycle_ok_ok] at hx ⊢
        have : { stats with inputs := ins } = x := by
          have := hx
          simp at this
          exact this
        subst this
        exact appendHistory_getLast st.history { stats with inputs := ins }

/-- C9: after any run of the poll loop, whenever the last-known-snapshot
reference holds a snapshot, the history is nonempty and its last entry is that
very snapshot — the published snapshot is always the most recently appended
history entry. -/
theorem lastStats_is_last_history
    (evs : List (FetchResult FilebeatStats × FetchResult (List Input)))
    (x : FilebeatStats) (hx : (runWorker evs).lastStats = some x) :
    (runWorker evs).history ≠ [] ∧ (runWorker evs).history.getLast? = some x := by
  have hlast : (runWorker evs).history.getLast? = some x := by
    rw [runWorker] at hx ⊢
    exact foldl_lastStats_getLast evs pollInit (by rw [pollInit]; intro y hy; cases hy) x hx
  refine ⟨?_, hlast⟩
  intro hnil
  rw [hnil] at hlast
  cases hlast

theorem lastStats_is_last_history_witness :
    (runWorker [(FetchResult.ok sampleStats, FetchResult.err)]).lastStats =
      some sampleStats ∧
    ((runWorker [(FetchResult.ok sampleStats, FetchResult.err)]).history ≠ [] ∧
      (runWorker [(FetchResult.ok sampleStats, FetchResult.err)]).history.getLast? =
        some sampleStats) :=
  ⟨rfl, lastStats_is_last_history _ sampleStats rfl⟩

/-! ## The inputs table -/

theorem removeRow_length (t : Table) (row : Nat) (h : row < t.length) :
    (removeRow t row).length = t.length - 1 := by
  rw [removeRow, if_pos h, List.length_eraseIdx, if_pos h]

theorem getRowCount_eq (t : Table) : getRowCount t = t.length := rfl

theorem clearRowsAux_irrel : ∀ f1 f2 (t : Table) (row : Nat),
    t.length - row ≤ f1 → t.length - row ≤ f2 →
    clearRowsAux f1 t row = clearRowsAux f2 t row := by
  intro f1
  induction f1 with
  | zero =>
    intro f2 t row h1 _
    have hnot : ¬ row < getRowCount t := by
      rw [getRowCount_eq]
      omega
    cases f2 with
    | zero => rfl
    | succ k => simp [clearRowsAux, hnot]
  | succ m ih =>
    intro f2 t row h1 h2
    cases f2 with
    | zero =>
      have hnot : ¬ row < getRowCount t := by
        rw [getRowCount_eq]
        omega
      simp [clearRowsAux, hnot]
    | succ k =>
      simp only [clearRowsAux]
      by_cases h : row < getRowCount t
      · rw [if_pos h, if_pos h]
        have h9 : row < t.length := by
          rw [getRowCount_eq] at h
          exact h
        have hlen : (removeRow t row).length = t.length - 1 :=
          removeRow_length t row h9
        apply ih
        · rw [hlen]
          omega
        · rw [hlen]
          omega
      · rw [if_neg h, if_neg h]

theorem formatFixed2_zero : formatFixed2 (0 : ℚ) = "0.00" := by
  rw [formatFixed2_of 0 0 (by norm_num)]
  rfl

theorem formatFixed2_inpA : formatFixed2 (25 / 2 : ℚ) = "12.50" := by
  rw [formatFixed2_of (25 / 2) 1250 (by norm_num)]
  rfl

theorem formatFixed2_inpB : formatFixed2 (3 / 2 : ℚ) = "1.50" := by
  rw [formatFixed2_of (3 / 2) 150 (by norm_num)]
  rfl

/-- C7 (evaluation at the failing input): render a snapshot with six inputs
into the fresh header-only table, then render a snapshot with two inputs.  The
claim requires exactly 3 rows (header plus two data rows); the program's
row-clearing loop removes the row at the advancing index while `RemoveRow`
shifts the remaining rows down, so it only deletes every other row, and the
second render ends with 4 rows — a stale third data row left over from the
six-input render — with correctly `%.2f`-formatted throughput in the fresh rows. -/
theorem inputsTable_stale :
    getRowCount (updateInputs (updateInputs [headerRow] sixInputs) twoInputs) = 4 ∧
    List.getD (updateInputs (updateInputs [headerRow] sixInputs) twoInputs) 1 [] =
      ["logA", "true", "3", "12.50", "4"] ∧
    List.getD (updateInputs (updateInputs [headerRow] sixInputs) twoInputs) 2 [] =
      ["logB", "false", "7", "1.50", "8"] ∧
    List.getD (updateInputs (updateInputs [headerRow] sixInputs) twoInputs) 3 [] =
      ["t6", "true", "6", "0.00", "6"] ∧
    ¬ getRowCount (updateInputs (updateInputs [headerRow] sixInputs) twoInputs) = 3 := by
  have hAll : updateInputs (updateInputs [headerRow] sixInputs) twoInputs =
      [headerRow,
        ["logA", "true", "3", formatFixed2 (25 / 2 : ℚ), "4"],
        ["logB", "false", "7", formatFixed2 (3 / 2 : ℚ), "8"],
        ["t6", "true", "6", formatFixed2 (0 : ℚ), "6"]] := rfl
  rw [hAll, formatFixed2_zero, formatFixed2_inpA, formatFixed2_inpB]
  decide

end Filtop
